import Mathlib

/-!
Shallow embedding of `src/worker.js` (fmxabd-webhosting), a Cloudflare Worker
that hosts static sites uploaded as ZIP archives: extraction to an R2 bucket
(`extractZip`), entry-point resolution (`findEntryPoint`), serving with an
SPA-style fallback (`serveHostedSite`), MIME classification (`getMimeType`)
and regex-based path rewriting (`fixRelativePaths`).

Bytes are modelled as Lean strings (one character per byte); the R2 bucket is
an association list in which a `put` prepends, so the most recent write for a
key wins on `get`.
-/

namespace Webhosting

/-- The single-quote character, written via its code point. -/
def sq : Char := Char.ofNat 39

/-- Tests whether the first list is a prefix of the second
(models the initial-segment comparison used by JS `startsWith` and by the
regex literals below). -/
def firstIsPre : List Char → List Char → Bool
  | [], _ => true
  | _ :: _, [] => false
  | a :: as, b :: bs => a = b && firstIsPre as bs

/-- Tests whether `sub` occurs contiguously inside `s`
(models JS `String.prototype.includes`). -/
def hasSub (sub : List Char) : List Char → Bool
  | [] => firstIsPre sub []
  | c :: cs => firstIsPre sub (c :: cs) || hasSub sub cs

/-- Models JS `s.includes(sub)`. -/
def strIncludes (s sub : String) : Bool := hasSub sub.toList s.toList

/-- Models JS `s.endsWith(suf)`. -/
def strEndsWith (s suf : String) : Bool :=
  firstIsPre suf.toList.reverse s.toList.reverse

/-- Splits a character list on `.` separators, exactly as JS
`"…".split('.')` does: the result is non-empty, adjacent or leading or
trailing dots produce empty components. -/
def splitDot : List Char → List (List Char)
  | [] => [[]]
  | c :: cs =>
    let r := splitDot cs
    if c = '.' then [] :: r
    else
      match r with
      | h :: t => (c :: h) :: t
      | [] => [[c]]

/-- Models JS `String.prototype.toLowerCase` on the ASCII range relevant to
this program (character-wise lowering). -/
def strToLower (s : String) : String :=
  String.mk (s.toList.map Char.toLower)

/-- The extension table of `getMimeType` (worker.js lines 278-292). -/
def mimeTypes : List (String × String) :=
  [("html", "text/html"), ("htm", "text/html"), ("css", "text/css"),
   ("js", "application/javascript"), ("json", "application/json"),
   ("png", "image/png"), ("jpg", "image/jpeg"), ("jpeg", "image/jpeg"),
   ("gif", "image/gif"), ("svg", "image/svg+xml"), ("txt", "text/plain"),
   ("pdf", "application/pdf"), ("zip", "application/zip")]

/-- Models `getMimeType` (worker.js lines 276-294):
`filename.split('.').pop().toLowerCase()` looked up in the table, with
`application/octet-stream` as default. -/
def getMimeType (filename : String) : String :=
  let ext := String.mk (((splitDot filename.toList).getLastD []).map Char.toLower)
  match mimeTypes.lookup ext with
  | some t => t
  | none => "application/octet-stream"

/-- A file entry as produced by `extractZip` and consumed by
`findEntryPoint` (fields `name`, `type`, `size`, `path` of the JS object
literal at worker.js lines 129-134); `type` is written `ftype` because
`type` is reserved in Lean. -/
structure FileEntry where
  name : String
  ftype : String
  size : Nat
  path : String
deriving DecidableEq, Repr

/-- A JS runtime error, as far as the embedding distinguishes them.
`typeError` models the TypeError the runtime raises on reading a property of
`undefined`; `emptySiteError` is the distinguished error value named by the
spec for empty input (no code in worker.js constructs it). -/
inductive JsError where
  | typeError (msg : String)
  | emptySiteError
deriving DecidableEq, Repr

deriving instance DecidableEq for Except

/-- The fixed priority list of `findEntryPoint` (worker.js lines 143-149). -/
def entryPoints : List String :=
  ["index.html", "index.htm", "default.html", "default.htm", "main.html"]

/-- Models `findEntryPoint` (worker.js lines 142-163). The loop over
`entryPoints` returns the priority-list constant `entry` itself on a
case-insensitive name match; otherwise the first entry whose `type` includes
"html" or whose name ends with ".html"; otherwise `files[0].name`, which on
an empty sequence throws a TypeError (reading `.name` of `undefined`). -/
def findEntryPoint (files : List FileEntry) : Except JsError String :=
  match entryPoints.find? (fun entry => files.any fun f => strToLower f.name = entry) with
  | some entry => .ok entry
  | none =>
    let htmlFiles := files.filter fun f =>
      strIncludes f.ftype "html" || strEndsWith f.name ".html"
    match htmlFiles with
    | h :: _ => .ok h.name
    | [] =>
      match files with
      | f :: _ => .ok f.name
      | [] => .error (.typeError "Cannot read properties of undefined (reading name)")

/-- An object stored in the R2 bucket: its bytes (modelled as a string) and
the optional `httpMetadata.contentType` it was put with. -/
structure StoredObject where
  content : String
  contentType : Option String
deriving DecidableEq, Repr

/-- The R2 bucket, as an association list from keys to stored objects.
A `put` prepends, so the most recent write for a key wins on `get`. -/
def Store : Type := List (String × StoredObject)

/-- Models `env.WEBSITES_BUCKET.put(key, content, {httpMetadata})`:
overwrites any previous object under `key`. -/
def r2put (st : Store) (key : String) (obj : StoredObject) : Store :=
  (key, obj) :: st

/-- Models `env.WEBSITES_BUCKET.get(key)`: the most recently put object under
`key`, or `none` (JS `null`) when the key was never written. -/
def r2get : Store → String → Option StoredObject
  | [], _ => none
  | (k, o) :: rest, key => if k = key then some o else r2get rest key

/-- A member of the uploaded ZIP archive as JSZip presents it: its name (the
key in `zip.files`), its directory flag `zipEntry.dir`, and its decompressed
content. -/
structure ZipMember where
  name : String
  dir : Bool
  content : String
deriving DecidableEq, Repr

/-- The R2 key `sites/<siteId>/<name>` (worker.js line 122 and line 174). -/
def mkKey (siteId name : String) : String :=
  "sites/" ++ siteId ++ "/" ++ name

/-- The FileEntry that `extractZip` pushes for a non-directory member
(worker.js lines 129-134). -/
def mkEntry (siteId : String) (m : ZipMember) : FileEntry :=
  ⟨m.name, getMimeType m.name, m.content.length, mkKey siteId m.name⟩

/-- Models `extractZip` (worker.js lines 110-139): iterate the archive
members in order; skip directories; for each file store its content under
`sites/<siteId>/<name>` tagged with `getMimeType(name)` and record a
FileEntry. Returns the entry list and the bucket after all writes. -/
def extractZip (siteId : String) : List ZipMember → Store → List FileEntry × Store
  | [], st => ([], st)
  | m :: ms, st =>
    if m.dir then extractZip siteId ms st
    else
      let st1 := r2put st (mkKey siteId m.name)
        ⟨m.content, some (getMimeType m.name)⟩
      let rec_result := extractZip siteId ms st1
      (mkEntry siteId m :: rec_result.1, rec_result.2)

/-- Models the persistence part of `handleZipUpload` (worker.js lines 71 and
88-89): extract the archive into the bucket, then put the site manifest
(`JSON.stringify(siteConfig)`, here the opaque `configContent`) at
`sites/<siteId>/config.json` with no `httpMetadata`. -/
def uploadStore (siteId : String) (ms : List ZipMember) (st : Store)
    (configContent : String) : Store :=
  r2put (extractZip siteId ms st).2 ("sites/" ++ siteId ++ "/config.json")
    ⟨configContent, none⟩

/-! Regex machinery for `fixRelativePaths`. Each of the four replacements in
worker.js lines 223-244 applies a global regex of the shape
`(<TAG[^>]*ATTR=["'])(?!https?://...)([^"']*)(["'])` with replacement
`$1<basePath>$2$3`. The matcher below implements exactly the backtracking
semantics of these regexes: the literal tag, a greedy `[^>]*` gap (longest
split that lets the rest match), the literal attribute, one quote character,
the negative lookahead, a greedy run of non-quote characters, and a closing
quote; the scan finds leftmost non-overlapping matches in the original
string. -/

/-- Tests whether a character is `"` or the single quote (the class `["']`). -/
def isQuoteC (c : Char) : Bool := c = '"' || c = sq

/-- Strips the literal `p` from the front of `s`, or fails. -/
def dropPre : List Char → List Char → Option (List Char)
  | [], s => some s
  | _ :: _, [] => none
  | a :: as, b :: bs => if a = b then dropPre as bs else none

/-- The negative lookahead `(?!https?://)` (with `|#` when `hash` is true):
true when the match must be rejected at this position. -/
def lookBlocked (hash : Bool) (s : List Char) : Bool :=
  firstIsPre "http://".toList s || firstIsPre "https://".toList s ||
    (hash && (match s with | c :: _ => c = '#' | [] => false))

/-- Matches `["'](?!...)([^"']*)(["'])` at the front of `s`, returning the
opening quote, the captured value, the closing quote and the rest. -/
def tryValue (hash : Bool) (s : List Char) :
    Option (Char × List Char × Char × List Char) :=
  match s with
  | q :: s2 =>
    if isQuoteC q then
      if lookBlocked hash s2 then none
      else
        let v := s2.takeWhile fun c => !(isQuoteC c)
        match s2.drop v.length with
        | q2 :: rest => if isQuoteC q2 then some (q, v, q2, rest) else none
        | [] => none
    else none
  | [] => none

/-- Matches `ATTR=["'](?!...)([^"']*)(["'])` at the front of `s`. -/
def tryAttr (attr : List Char) (hash : Bool) (s : List Char) :
    Option (Char × List Char × Char × List Char) :=
  match dropPre attr s with
  | some s1 => tryValue hash s1
  | none => none

/-- Matches `[^>]*ATTR=...` at the front of `s` with a greedy gap: the
longest run of non-`>` characters after which the rest of the pattern
matches, as a backtracking regex engine resolves `[^>]*`. Returns the gap,
the quotes, the captured value and the rest. -/
def tryGap (attr : List Char) (hash : Bool) :
    List Char → Option (List Char × Char × List Char × Char × List Char)
  | [] =>
    (tryAttr attr hash []).map fun r => ([], r.1, r.2.1, r.2.2.1, r.2.2.2)
  | c :: cs =>
    if c = '>' then
      (tryAttr attr hash (c :: cs)).map fun r =>
        ([], r.1, r.2.1, r.2.2.1, r.2.2.2)
    else
      match tryGap attr hash cs with
      | some (g, q, v, q2, rest) => some (c :: g, q, v, q2, rest)
      | none =>
        (tryAttr attr hash (c :: cs)).map fun r =>
          ([], r.1, r.2.1, r.2.2.1, r.2.2.2)

/-- Attempts the whole pattern `(<TAG[^>]*ATTR=["'])(?!...)([^"']*)(["'])`
at the front of `s`; on success returns group 1, group 2 (the value), the
closing quote (group 3) and the unconsumed rest. -/
def tryTag (tag attr : List Char) (hash : Bool) (s : List Char) :
    Option (List Char × List Char × Char × List Char) :=
  match dropPre tag s with
  | some s1 =>
    match tryGap attr hash s1 with
    | some (g, q, v, q2, rest) =>
      some (tag ++ g ++ attr ++ [q], v, q2, rest)
    | none => none
  | none => none

/-- One global `replace` pass: scan left to right, at each position attempt
the pattern; on a match emit `$1 ++ base ++ $2 ++ $3` and continue after the
match, otherwise keep the character. `fuel` only bounds the recursion; any
value at least the length of the input gives the exact JS behaviour, since
every step consumes at least one character. -/
def scanRe (tag attr : List Char) (hash : Bool) (base : List Char) :
    Nat → List Char → List Char
  | 0, s => s
  | _ + 1, [] => []
  | fuel + 1, c :: cs =>
    match tryTag tag attr hash (c :: cs) with
    | some (g1, v, q2, rest) =>
      g1 ++ base ++ v ++ q2 :: scanRe tag attr hash base fuel rest
    | none => c :: scanRe tag attr hash base fuel cs

/-- One of the four `html.replace(regex, ...)` lines, as a function on
strings. -/
def replacePass (tag attr : String) (hash : Bool) (base : List Char)
    (s : List Char) : List Char :=
  scanRe tag.toList attr.toList hash base s.length s

/-- Models `fixRelativePaths` (worker.js lines 221-247): the four global
replacements, in source order — link href, script src, img src, anchor href
(the last also excluding values starting with `#`). -/
def fixRelativePaths (html basePath : String) : String :=
  let b := basePath.toList
  let h1 := replacePass "<link" "href=" false b html.toList
  let h2 := replacePass "<script" "src=" false b h1
  let h3 := replacePass "<img" "src=" false b h2
  let h4 := replacePass "<a" "href=" true b h3
  String.mk h4

/-- An HTTP response as far as the embedding observes it: status, body, and
the `Content-Type` and `Cache-Control` headers (absent entries are `none`). -/
structure HttpResp where
  status : Nat
  body : String
  contentType : Option String
  cacheControl : Option String
deriving DecidableEq, Repr

/-- The `new Response('File not found', {status: 404})` of worker.js
line 213. -/
def notFoundResp : HttpResp :=
  ⟨404, "File not found", none, none⟩

/-- Models `serveHostedSite` (worker.js lines 166-218) after URL parsing:
`path` is `pathParts.slice(2).join('/')`, defaulted to `index.html` when
empty. On a hit the content type is classified from the requested name; HTML
content is rewritten with base `/s/<siteId>/`; for non-HTML the raw bytes are
returned and `object.writeHttpMetadata(headers)` overwrites the Content-Type
header with the stored `httpMetadata.contentType` when the object has one.
On a miss with `path ≠ index.html`, a fallback read of `index.html` is
served rewritten with a bare `text/html` header; otherwise 404. -/
def serveHostedSite (st : Store) (siteId path : String) : HttpResp :=
  let requestedFile := if path = "" then "index.html" else path
  let fileKey := mkKey siteId requestedFile
  match r2get st fileKey with
  | some obj =>
    let contentType := getMimeType requestedFile
    if strIncludes contentType "html" then
      ⟨200, fixRelativePaths obj.content ("/s/" ++ siteId ++ "/"),
        some contentType, some "public, max-age=3600"⟩
    else
      ⟨200, obj.content,
        some (match obj.contentType with | some t => t | none => contentType),
        some "public, max-age=3600"⟩
  | none =>
    if requestedFile = "index.html" then notFoundResp
    else
      match r2get st (mkKey siteId "index.html") with
      | some idx =>
        ⟨200, fixRelativePaths idx.content ("/s/" ++ siteId ++ "/"),
          some "text/html", none⟩
      | none => notFoundResp

/-! Helper lemmas about the store and keys. -/

theorem r2get_put_same (st : Store) (k : String) (o : StoredObject) :
    r2get (r2put st k o) k = some o := by
  simp [r2put, r2get]

theorem r2get_put_ne (st : Store) (k key : String) (o : StoredObject)
    (h : k ≠ key) : r2get (r2put st k o) key = r2get st key := by
  simp [r2put, r2get, h]

theorem mkKey_inj (siteId : String) {a b : String}
    (h : mkKey siteId a = mkKey siteId b) : a = b := by
  have h2 := congrArg String.data h
  simp only [mkKey, String.data_append, List.append_assoc] at h2
  exact String.ext
    (List.append_cancel_left (List.append_cancel_left (List.append_cancel_left h2)))

theorem extract_get_of_fresh (siteId : String) (ms : List ZipMember)
    (st : Store) (k : String)
    (hk : ∀ m ∈ ms, m.dir = false → mkKey siteId m.name ≠ k) :
    r2get (extractZip siteId ms st).2 k = r2get st k := by
  induction ms generalizing st with
  | nil => rfl
  | cons m ms ih =>
    by_cases hd : m.dir
    · have h1 : extractZip siteId (m :: ms) st = extractZip siteId ms st := by
        simp [extractZip, hd]
      rw [h1]
      exact ih st fun m' hm' h' => hk m' (by simp [hm']) h'
    · have hd' : m.dir = false := by simpa using hd
      have hne : mkKey siteId m.name ≠ k := hk m (by simp) hd'
      have h1 : (extractZip siteId (m :: ms) st).2 =
          (extractZip siteId ms
            (r2put st (mkKey siteId m.name)
              ⟨m.content, some (getMimeType m.name)⟩)).2 := by
        simp [extractZip, hd']
      rw [h1, ih _ fun m' hm' h' => hk m' (by simp [hm']) h',
        r2get_put_ne _ _ _ _ hne]

/-- Claim C4: extraction produces exactly one FileEntry per non-directory
member (none for directories), with `name` the member name, `type` the MIME
classification of that name, `size` the content length, `path` the key
`sites/<siteId>/<name>`, and the store receives exactly one write per
non-directory member, under that key, of its content tagged with that
content type. -/
theorem extractZip_entries_and_writes (siteId : String) (ms : List ZipMember)
    (st : Store) :
    (extractZip siteId ms st).1 =
      (ms.filter fun m => !m.dir).map (mkEntry siteId) ∧
    (extractZip siteId ms st).2 =
      (ms.filter fun m => !m.dir).foldl
        (fun s m => r2put s (mkKey siteId m.name)
          ⟨m.content, some (getMimeType m.name)⟩) st := by
  induction ms generalizing st with
  | nil => exact ⟨rfl, rfl⟩
  | cons m ms ih =>
    by_cases hd : m.dir
    · simpa [extractZip, hd] using ih st
    · have hd' : m.dir = false := by simpa using hd
      simpa [extractZip, hd'] using ih
        (r2put st (mkKey siteId m.name) ⟨m.content, some (getMimeType m.name)⟩)

/-- Claim C9: when the archive's non-directory member names are pairwise
distinct (as JSZip guarantees, `zip.files` being keyed by name), every
FileEntry produced by extraction corresponds to a member whose exact content
bytes are read back from the store at `entry.path`, tagged with the entry's
type, and the content length equals `entry.size`. -/
theorem extractZip_roundtrip (siteId : String) (ms : List ZipMember)
    (st : Store)
    (hnd : ((ms.filter fun m => !m.dir).map ZipMember.name).Nodup) :
    ∀ e ∈ (extractZip siteId ms st).1,
      ∃ m ∈ ms, m.dir = false ∧ e = mkEntry siteId m ∧
        r2get (extractZip siteId ms st).2 e.path =
          some ⟨m.content, some e.ftype⟩ ∧
        m.content.length = e.size := by
  induction ms generalizing st with
  | nil => intro e he; simp [extractZip] at he
  | cons m ms ih =>
    intro e he
    by_cases hd : m.dir
    · have h1 : extractZip siteId (m :: ms) st = extractZip siteId ms st := by
        simp [extractZip, hd]
      rw [h1] at he ⊢
      have hnd' : ((ms.filter fun m => !m.dir).map ZipMember.name).Nodup := by
        simpa [List.filter_cons, hd] using hnd
      obtain ⟨m', hm', hrest⟩ := ih st hnd' e he
      exact ⟨m', by simp [hm'], hrest⟩
    · have hd' : m.dir = false := by simpa using hd
      have hnd2 : (m.name :: (ms.filter fun m => !m.dir).map ZipMember.name).Nodup := by
        simpa [List.filter_cons, hd'] using hnd
      have hnotin : m.name ∉ (ms.filter fun m => !m.dir).map ZipMember.name :=
        (List.nodup_cons.mp hnd2).1
      have hnd' : ((ms.filter fun m => !m.dir).map ZipMember.name).Nodup :=
        (List.nodup_cons.mp hnd2).2
      have h1 : (extractZip siteId (m :: ms) st).1 =
          mkEntry siteId m ::
            (extractZip siteId ms
              (r2put st (mkKey siteId m.name)
                ⟨m.content, some (getMimeType m.name)⟩)).1 := by
        simp [extractZip, hd']
      have h2 : (extractZip siteId (m :: ms) st).2 =
          (extractZip siteId ms
            (r2put st (mkKey siteId m.name)
              ⟨m.content, some (getMimeType m.name)⟩)).2 := by
        simp [extractZip, hd']
      rw [h1] at he
      rcases List.mem_cons.mp he with he | he
      · refine ⟨m, by simp, hd', he, ?_, by simp [he, mkEntry]⟩
        have hfresh : ∀ m' ∈ ms, m'.dir = false →
            mkKey siteId m'.name ≠ mkKey siteId m.name := by
          intro m' hm' hdm' hkey
          exact hnotin (by
            refine List.mem_map.mpr ⟨m', ?_, mkKey_inj siteId hkey⟩
            simp [List.mem_filter, hm', hdm'])
        have hpath : e.path = mkKey siteId m.name := by simp [he, mkEntry]
        rw [h2, hpath, extract_get_of_fresh siteId ms _ _ hfresh,
          r2get_put_same]
        simp [he, mkEntry]
      · obtain ⟨m', hm', hdm', hem', hget, hlen⟩ := ih _ hnd' e he
        rw [h2]
        exact ⟨m', by simp [hm'], hdm', hem', hget, hlen⟩

/-- Witness for C9: a one-member archive, extracted into an empty bucket;
the produced entry reads back its content of length 11. -/
theorem extractZip_roundtrip_witness :
    ∃ m ∈ [ZipMember.mk "index.html" false "<h1>hi</h1>"],
      m.dir = false ∧
      FileEntry.mk "index.html" "text/html" 11 "sites/abc/index.html" =
        mkEntry "abc" m ∧
      r2get (extractZip "abc" [ZipMember.mk "index.html" false "<h1>hi</h1>"] []).2
          (FileEntry.mk "index.html" "text/html" 11 "sites/abc/index.html").path =
        some ⟨m.content,
          some (FileEntry.mk "index.html" "text/html" 11 "sites/abc/index.html").ftype⟩ ∧
      m.content.length =
        (FileEntry.mk "index.html" "text/html" 11 "sites/abc/index.html").size :=
  extractZip_roundtrip "abc" [ZipMember.mk "index.html" false "<h1>hi</h1>"] []
    (by decide)
    (FileEntry.mk "index.html" "text/html" 11 "sites/abc/index.html")
    (by decide)

/-- Counterexample to claim C1: for the single file "Index.HTML" the
resolver returns the lowercase priority constant "index.html", which does
not preserve the stored casing and is not the name of any input entry. -/
theorem findEntryPoint_case_counterexample :
    findEntryPoint [FileEntry.mk "Index.HTML" "text/html" 0 "sites/s/Index.HTML"] =
        .ok "index.html" ∧
      ¬ ∃ f ∈ [FileEntry.mk "Index.HTML" "text/html" 0 "sites/s/Index.HTML"],
          findEntryPoint [FileEntry.mk "Index.HTML" "text/html" 0 "sites/s/Index.HTML"] =
            .ok f.name := by
  decide

/-- Claim C1 as amended: when some entry matches a priority-list name
case-insensitively, `findEntryPoint` returns the priority-list constant
itself — the first name of the fixed order that some entry matches — which
equals the lowercasing of a matching entry's name, not necessarily any
stored name. -/
theorem findEntryPoint_priority (files : List FileEntry) (p : String)
    (hp : entryPoints.find?
        (fun entry => files.any fun f => strToLower f.name = entry) = some p) :
    findEntryPoint files = .ok p ∧ ∃ f ∈ files, strToLower f.name = p := by
  constructor
  · unfold findEntryPoint
    rw [hp]
  · have h := List.find?_some hp
    simpa using h

/-- Witness for the amended C1: the single file "Index.HTML" resolves to
the constant "index.html". -/
theorem findEntryPoint_priority_witness :
    findEntryPoint [FileEntry.mk "Index.HTML" "text/html" 0 "p"] =
        .ok "index.html" ∧
      ∃ f ∈ [FileEntry.mk "Index.HTML" "text/html" 0 "p"],
        strToLower f.name = "index.html" :=
  findEntryPoint_priority [FileEntry.mk "Index.HTML" "text/html" 0 "p"]
    "index.html" (by decide)

/-- Claim C5: with no case-insensitive priority match, the resolver returns
the name of the first entry whose type includes "html" or whose name ends in
".html", and otherwise the name of the first entry; it never fails on
non-empty input. -/
theorem findEntryPoint_html_fallback (files : List FileEntry)
    (hne : files ≠ [])
    (hnone : entryPoints.find?
        (fun entry => files.any fun f => strToLower f.name = entry) = none) :
    findEntryPoint files =
      .ok (((files.filter fun f =>
            strIncludes f.ftype "html" || strEndsWith f.name ".html").headD
          (files.head hne)).name) := by
  unfold findEntryPoint
  rw [hnone]
  cases hf : files.filter fun f =>
      strIncludes f.ftype "html" || strEndsWith f.name ".html" with
  | cons h t => simp [hf]
  | nil =>
    cases files with
    | nil => exact absurd rfl hne
    | cons f fs => simp [hf]

/-- Witness for C5: the two examples of the claim, {"About.HTML"} resolving
to "About.HTML" and {"readme.txt","photo.png"} resolving to "readme.txt". -/
theorem findEntryPoint_html_fallback_witness :
    findEntryPoint [FileEntry.mk "About.HTML" "text/html" 7 "p"] =
        .ok "About.HTML" ∧
      findEntryPoint [FileEntry.mk "readme.txt" "text/plain" 10 "p",
          FileEntry.mk "photo.png" "image/png" 5 "q"] =
        .ok "readme.txt" :=
  ⟨findEntryPoint_html_fallback [FileEntry.mk "About.HTML" "text/html" 7 "p"]
      (by decide) (by decide),
    findEntryPoint_html_fallback [FileEntry.mk "readme.txt" "text/plain" 10 "p",
      FileEntry.mk "photo.png" "image/png" 5 "q"] (by decide) (by decide)⟩

/-- Counterexample to claim C6: on the empty sequence the resolver does not
fail with the distinguished `emptySiteError`; no code path constructs that
value. -/
theorem findEntryPoint_empty_counterexample :
    findEntryPoint [] ≠ .error JsError.emptySiteError := by
  decide

/-- Claim C6 as amended: on the empty sequence the resolver fails — it does
not return a name — but with the generic TypeError raised by reading `.name`
of `undefined` (`files[0]` on an empty array), not with a distinguished
EmptySiteError. -/
theorem findEntryPoint_empty_throws :
    findEntryPoint [] =
      .error (.typeError "Cannot read properties of undefined (reading name)") := by
  decide

/-- Claim C2: an empty requested path is served as `index.html`; a miss on a
non-`index.html` path falls back to a second read of `index.html`, returned
rewritten as an HTML response on a hit; the 404 NotFound response is
returned exactly when the first read misses and either the request was for
`index.html` or the fallback read also misses; and every 404 is that
NotFound response. -/
theorem serveHostedSite_fallback_404 (st : Store) (siteId path : String) :
    (path = "" →
      serveHostedSite st siteId path = serveHostedSite st siteId "index.html") ∧
    ((if path = "" then "index.html" else path) ≠ "index.html" →
      r2get st (mkKey siteId (if path = "" then "index.html" else path)) = none →
      ∀ idx, r2get st (mkKey siteId "index.html") = some idx →
        serveHostedSite st siteId path =
          ⟨200, fixRelativePaths idx.content ("/s/" ++ siteId ++ "/"),
            some "text/html", none⟩) ∧
    (serveHostedSite st siteId path = notFoundResp ↔
      r2get st (mkKey siteId (if path = "" then "index.html" else path)) = none ∧
        ((if path = "" then "index.html" else path) = "index.html" ∨
          r2get st (mkKey siteId "index.html") = none)) ∧
    ((serveHostedSite st siteId path).status = 404 ↔
      serveHostedSite st siteId path = notFoundResp) := by
  refine ⟨fun hp => by subst hp; rfl, ?_, ?_, ?_⟩
  · intro hne hget idx hidx
    simp only [serveHostedSite]
    rw [hget, if_neg hne, hidx]
  · simp only [serveHostedSite]
    cases hget : r2get st (mkKey siteId (if path = "" then "index.html" else path)) with
    | some obj =>
      by_cases hh : strIncludes
          (getMimeType (if path = "" then "index.html" else path)) "html" <;>
        simp [hh, notFoundResp]
    | none =>
      by_cases hri : (if path = "" then "index.html" else path) = "index.html"
      · simp [hri, notFoundResp]
      · cases hidx : r2get st (mkKey siteId "index.html") with
        | some idx => simp [hri, hidx, notFoundResp]
        | none => simp [hri, hidx, notFoundResp]
  · simp only [serveHostedSite]
    cases hget : r2get st (mkKey siteId (if path = "" then "index.html" else path)) with
    | some obj =>
      by_cases hh : strIncludes
          (getMimeType (if path = "" then "index.html" else path)) "html" <;>
        simp [hh, notFoundResp]
    | none =>
      by_cases hri : (if path = "" then "index.html" else path) = "index.html"
      · simp [hri, notFoundResp]
      · cases hidx : r2get st (mkKey siteId "index.html") with
        | some idx => simp [hri, hidx, notFoundResp]
        | none => simp [hri, hidx, notFoundResp]

/-- Witness for C2: a bucket holding only `sites/a/index.html`; the request
for the missing `missing.css` is served the rewritten index content as
HTML. -/
theorem serveHostedSite_fallback_404_witness :
    serveHostedSite [("sites/a/index.html",
        StoredObject.mk "<h1>hi</h1>" (some "text/html"))] "a" "missing.css" =
      ⟨200, fixRelativePaths "<h1>hi</h1>" ("/s/" ++ "a" ++ "/"),
        some "text/html", none⟩ :=
  (serveHostedSite_fallback_404
      [("sites/a/index.html", StoredObject.mk "<h1>hi</h1>" (some "text/html"))]
      "a" "missing.css").2.1 (by decide) (by decide)
    (StoredObject.mk "<h1>hi</h1>" (some "text/html")) (by decide)

/-- Counterexample to claim C7: a stored object whose metadata content type
disagrees with the extension-derived one is served with the stored metadata
type — `object.writeHttpMetadata(headers)` runs after
`headers.set('Content-Type', ...)` and overwrites it. -/
theorem serveHostedSite_metadata_counterexample :
    (serveHostedSite [("sites/x/a.png", StoredObject.mk "BYTES" (some "text/plain"))]
          "x" "a.png").contentType = some "text/plain" ∧
      getMimeType "a.png" = "image/png" ∧
      ("text/plain" : String) ≠ "image/png" := by
  decide

/-- Claim C7 as amended: on a hit, the content type is classified from the
requested path's extension; if it denotes HTML the stored content is
rewritten with base `/s/<siteId>/` and served under the classified type;
otherwise the raw bytes are served, and the Content-Type header is the
stored metadata content type when the object has one, with the classified
type only as fallback (for objects written by extraction the two coincide,
extraction storing the classification of the same name). -/
theorem serveHostedSite_hit (st : Store) (siteId path : String)
    (obj : StoredObject) (hp : path ≠ "")
    (hget : r2get st (mkKey siteId path) = some obj) :
    serveHostedSite st siteId path =
      if strIncludes (getMimeType path) "html" then
        ⟨200, fixRelativePaths obj.content ("/s/" ++ siteId ++ "/"),
          some (getMimeType path), some "public, max-age=3600"⟩
      else
        ⟨200, obj.content,
          some (obj.contentType.getD (getMimeType path)),
          some "public, max-age=3600"⟩ := by
  simp only [serveHostedSite]
  rw [if_neg hp, hget]
  cases hc : obj.contentType <;>
    by_cases hh : strIncludes (getMimeType path) "html" <;>
      simp [hh, hc]

/-- Witness for the amended C7: the stored `text/plain` metadata wins over
the `image/png` classification of `a.png`. -/
theorem serveHostedSite_hit_witness :
    serveHostedSite [("sites/x/a.png", StoredObject.mk "BYTES" (some "text/plain"))]
        "x" "a.png" =
      ⟨200, "BYTES", some "text/plain", some "public, max-age=3600"⟩ :=
  serveHostedSite_hit
    [("sites/x/a.png", StoredObject.mk "BYTES" (some "text/plain"))]
    "x" "a.png" (StoredObject.mk "BYTES" (some "text/plain"))
    (by decide) (by decide)

/-- The match attempt always fails on the empty string. -/
theorem tryTag_nil (tag attr : List Char) (hash : Bool) :
    tryTag tag attr hash [] = none := by
  cases tag with
  | nil => cases attr <;> rfl
  | cons a as => rfl

/-- A prefix of `l.takeWhile pred` is a prefix of `l`. -/
theorem firstIsPre_takeWhile (p : List Char) (pred : Char → Bool)
    (l : List Char) (h : firstIsPre p (l.takeWhile pred) = true) :
    firstIsPre p l = true := by
  induction p generalizing l with
  | nil => rfl
  | cons a as ih =>
    cases l with
    | nil => simpa using h
    | cons b bs =>
      rw [List.takeWhile_cons] at h
      by_cases hb : pred b = true
      · rw [if_pos hb] at h
        simp only [firstIsPre, Bool.and_eq_true, decide_eq_true_eq] at h ⊢
        exact ⟨h.1, ih bs h.2⟩
      · rw [if_neg hb] at h
        simp [firstIsPre] at h

/-- Shape of a successful value match: the input starts with the returned
quote, the lookahead passed, and the captured value is the maximal run of
non-quote characters after the quote. -/
theorem tryValue_eq_some {hash : Bool} {s : List Char} {q : Char}
    {v : List Char} {q2 : Char} {rest : List Char}
    (h : tryValue hash s = some (q, v, q2, rest)) :
    ∃ s2, s = q :: s2 ∧ lookBlocked hash s2 = false ∧
      v = s2.takeWhile fun c => !(isQuoteC c) := by
  cases s with
  | nil => exact absurd h (by simp [tryValue])
  | cons q0 s2 =>
    by_cases hq : isQuoteC q0 = true
    · by_cases hb : lookBlocked hash s2 = true
      · exact absurd h (by simp [tryValue, hq, hb])
      · have hb' : lookBlocked hash s2 = false := by simpa using hb
        cases hdrop : s2.drop (s2.takeWhile fun c => !(isQuoteC c)).length with
        | nil => exact absurd h (by simp [tryValue, hq, hb', hdrop])
        | cons q2' rest' =>
          by_cases hq2 : isQuoteC q2' = true
          · simp only [tryValue, hq, hb', hdrop, hq2, Bool.false_eq_true,
              if_false, if_true, Option.some.injEq, Prod.mk.injEq] at h
            obtain ⟨h1, h2, h3, h4⟩ := h
            subst h1
            exact ⟨s2, rfl, hb', h2.symm⟩
          · exact absurd h (by simp [tryValue, hq, hb', hdrop, hq2])
    · exact absurd h (by simp [tryValue, hq])

/-- Counterexample to claim C3: the anchor pattern `<a[^>]*href=` matches
beyond the four named contexts — any tag whose name begins with `a`
(`<article>`, `<area>`) and any attribute ending in the literal
(`data-href`) are rewritten too, so values outside the four contexts are
not left unchanged. -/
theorem fixRelativePaths_context_counterexample :
    fixRelativePaths "<article href=\"x\">" "/s/abc/" =
        "<article href=\"/s/abc/x\">" ∧
      fixRelativePaths "<a data-href=\"x\">y</a>" "/s/abc/" =
        "<a data-href=\"/s/abc/x\">y</a>" ∧
      fixRelativePaths "<article href=\"x\">" "/s/abc/" ≠
        "<article href=\"x\">" := by
  decide

/-- Claim C3 as amended: the rewriter applies its four global regex passes
in order, and each pass prefixes `basePath` exactly onto the quoted values
it matches, where a match is any text beginning with the pass's tag literal
(`<link`, `<script`, `<img`, `<a` — hence also tags such as `<article>` and
attributes such as `data-href=`, not only the four exact attribute
contexts) followed by non-`>` characters and the attribute literal: a
captured value never begins with `http://` or `https://`, nor with `#` for
the anchor pass (first conjunct); on a match the scan emits group 1, the
base, the value and the closing quote and continues after the match (second
conjunct); text with no match anywhere is returned unchanged (third
conjunct); and the spec's three cited examples hold (remaining
conjuncts). -/
theorem fixRelativePaths_regex_behavior :
    (∀ (hash : Bool) (s : List Char) (q : Char) (v : List Char) (q2 : Char)
        (rest : List Char), tryValue hash s = some (q, v, q2, rest) →
          firstIsPre "http://".toList v = false ∧
          firstIsPre "https://".toList v = false ∧
          (hash = true → firstIsPre ['#'] v = false)) ∧
    (∀ (tag attr : List Char) (hash : Bool) (base : List Char) (fuel : Nat)
        (s g1 v : List Char) (q2 : Char) (rest : List Char),
        tryTag tag attr hash s = some (g1, v, q2, rest) →
          scanRe tag attr hash base (fuel + 1) s =
            g1 ++ base ++ v ++ q2 :: scanRe tag attr hash base fuel rest) ∧
    (∀ (tag attr : List Char) (hash : Bool) (base : List Char) (fuel : Nat)
        (s : List Char),
        (∀ s' ∈ s.tails, tryTag tag attr hash s' = none) →
          scanRe tag attr hash base fuel s = s) ∧
    fixRelativePaths "<link href=\"style.css\">" "/s/abc/" =
        "<link href=\"/s/abc/style.css\">" ∧
    fixRelativePaths "<a href=\"https://example.com\">x</a>" "/s/abc/" =
        "<a href=\"https://example.com\">x</a>" ∧
    fixRelativePaths "<a href=\"#top\">x</a>" "/s/abc/" =
        "<a href=\"#top\">x</a>" := by
  refine ⟨?_, ?_, ?_, by decide, by decide, by decide⟩
  · intro hash s q v q2 rest h
    obtain ⟨s2, rfl, hnb, hv⟩ := tryValue_eq_some h
    refine ⟨?_, ?_, ?_⟩
    · cases hfp : firstIsPre "http://".toList v with
      | false => rfl
      | true =>
        rw [hv] at hfp
        have h2 := firstIsPre_takeWhile _ _ _ hfp
        have hl : lookBlocked hash s2 = true := by
          unfold lookBlocked
          rw [h2]
          simp
        rw [hl] at hnb
        exact hnb
    · cases hfp : firstIsPre "https://".toList v with
      | false => rfl
      | true =>
        rw [hv] at hfp
        have h2 := firstIsPre_takeWhile _ _ _ hfp
        have hl : lookBlocked hash s2 = true := by
          unfold lookBlocked
          rw [h2]
          simp
        rw [hl] at hnb
        exact hnb
    · intro hh
      subst hh
      cases hfp : firstIsPre ['#'] v with
      | false => rfl
      | true =>
        rw [hv] at hfp
        have h2 := firstIsPre_takeWhile _ _ _ hfp
        cases s2 with
        | nil => simp [firstIsPre] at h2
        | cons c cs =>
          simp only [firstIsPre, Bool.and_eq_true, decide_eq_true_eq] at h2
          have hl : lookBlocked true (c :: cs) = true := by
            unfold lookBlocked
            simp [h2.1.symm]
          rw [hl] at hnb
          exact hnb
  · intro tag attr hash base fuel s g1 v q2 rest h
    cases s with
    | nil => rw [tryTag_nil] at h; exact absurd h (by simp)
    | cons c cs =>
      simp only [scanRe]
      rw [h]
  · intro tag attr hash base fuel
    induction fuel with
    | zero => intro s h; rfl
    | succ n ih =>
      intro s h
      cases s with
      | nil => rfl
      | cons c cs =>
        have h0 : tryTag tag attr hash (c :: cs) = none :=
          h (c :: cs) ((List.mem_tails _ _).mpr (List.suffix_refl _))
        have hrec : scanRe tag attr hash base n cs = cs :=
          ih cs fun s' hs' => h s' ((List.mem_tails _ _).mpr
            (((List.mem_tails _ _).mp hs').trans (List.suffix_cons c cs)))
        simp only [scanRe, h0, hrec]

/-- Witness for the amended C3: the lookahead conjunct at the match inside
`<link href="style.css">`, the match-step conjunct on that whole string, and
the no-match conjunct on plain text. -/
theorem fixRelativePaths_regex_behavior_witness :
    (firstIsPre "http://".toList "style.css".toList = false ∧
      firstIsPre "https://".toList "style.css".toList = false ∧
      (false = true → firstIsPre ['#'] "style.css".toList = false)) ∧
    scanRe "<link".toList "href=".toList false "/s/abc/".toList (23 + 1)
        "<link href=\"style.css\">".toList =
      "<link href=\"".toList ++ "/s/abc/".toList ++ "style.css".toList ++
        '"' :: scanRe "<link".toList "href=".toList false "/s/abc/".toList
          23 ['>'] ∧
    scanRe "<img".toList "src=".toList false "/s/abc/".toList 5
        "hello".toList = "hello".toList :=
  ⟨fixRelativePaths_regex_behavior.1 false "\"style.css\">".toList '"'
      "style.css".toList '"' ['>'] (by decide),
    fixRelativePaths_regex_behavior.2.1 "<link".toList "href=".toList false
      "/s/abc/".toList 23 "<link href=\"style.css\">".toList
      "<link href=\"".toList "style.css".toList '"' ['>'] (by decide),
    fixRelativePaths_regex_behavior.2.2.1 "<img".toList "src=".toList false
      "/s/abc/".toList 5 "hello".toList (by decide)⟩

/-- Claim C8: the rewriter is not idempotent — rewriting an already
rewritten document re-prefixes the relative values again. -/
theorem fixRelativePaths_not_idempotent :
    ∃ h b : String,
      fixRelativePaths (fixRelativePaths h b) b ≠ fixRelativePaths h b :=
  ⟨"<link href=\"style.css\">", "/s/abc/", by decide⟩

/-- The template-literal key of the manifest write equals `mkKey` applied
to `config.json`. -/
theorem mkKey_config (siteId : String) :
    mkKey siteId "config.json" = "sites/" ++ siteId ++ "/config.json" := by
  apply String.ext
  have h : ("/" : String).data ++ ("config.json" : String).data =
      ("/config.json" : String).data := rfl
  simp only [mkKey, String.data_append, List.append_assoc, h]

/-- Claim C10: the manifest is persisted at `sites/<siteId>/config.json`,
inside the key namespace the server reads; an archive member named
`config.json` maps to that same key, the manifest write after extraction
overwrites it, and serving `config.json` returns the manifest as an
`application/json` hit. -/
theorem config_manifest_shared_key (siteId : String) (ms : List ZipMember)
    (st : Store) (configContent : String) :
    mkKey siteId "config.json" = "sites/" ++ siteId ++ "/config.json" ∧
    (∀ m : ZipMember, m.name = "config.json" →
      (mkEntry siteId m).path = "sites/" ++ siteId ++ "/config.json") ∧
    r2get (uploadStore siteId ms st configContent)
        ("sites/" ++ siteId ++ "/config.json") =
      some ⟨configContent, none⟩ ∧
    serveHostedSite (uploadStore siteId ms st configContent) siteId
        "config.json" =
      ⟨200, configContent, some "application/json",
        some "public, max-age=3600"⟩ := by
  refine ⟨mkKey_config siteId, ?_, ?_, ?_⟩
  · intro m hm
    simp only [mkEntry, hm]
    exact mkKey_config siteId
  · exact r2get_put_same _ _ _
  · simp only [serveHostedSite]
    rw [show (if ("config.json" : String) = "" then "index.html" else "config.json") =
      "config.json" from rfl]
    rw [mkKey_config siteId]
    rw [show r2get (uploadStore siteId ms st configContent)
        ("sites/" ++ siteId ++ "/config.json") = some ⟨configContent, none⟩ from
      r2get_put_same _ _ _]
    rw [show strIncludes (getMimeType "config.json") "html" = false from rfl]
    rfl

end Webhosting
